import Mathlib

/-!
Verification of the KUKA pose-transformation core (`kukatransformations.py`)
against its specification.

The embedding models NumPy double arithmetic over `ℝ`: `np.radians`/`np.degrees`
are the exact `π/180` scalings, `np.arctan2 y x` is the complex argument of
`x + y·i` (the standard two-argument arctangent), matrices are
`Matrix (Fin n) (Fin n) ℝ`, and `np.linalg.inv` is Mathlib's matrix inverse
(which agrees with the true inverse on invertible matrices).  Python
exceptions are modelled by `Except PyErr`; `ValueError` (raised by
`parse_pose_string`, by `float`, by sequence unpacking and by
`np.vstack([])`) is `PyErr.valueError`.  The spec's `EmptyChainError` class,
which does not exist in the code, is the separate constructor
`PyErr.emptyChainError`.
-/

namespace Kuka

/-- Python exception kinds relevant to this program.  The code only ever
raises `ValueError`; `emptyChainError` is the distinguishable error class
the spec postulates (`EmptyChainError`), modelled so that statements about
it can be made. -/
inductive PyErr
  | valueError
  | emptyChainError
  deriving DecidableEq

/-! ### PoseCodec: `parse_pose_string` (computable, over `ℚ`) -/

/-- Characters matched by the regex character class `[-\d.]`. -/
def isGroupChar (c : Char) : Bool := c = '-' || c = '.' || c.isDigit

/-- Match a literal string at the head of the input, returning the rest. -/
def matchLiteral : List Char → List Char → Option (List Char)
  | [], cs => some cs
  | _ :: _, [] => none
  | l :: ls, c :: cs => if c = l then matchLiteral ls cs else none

/-- Match one regex group `([-\d.]+)`: a maximal nonempty run of class
characters.  (In the source pattern every group is followed by a literal
starting with `,` or `}`, neither of which is a class character, so the
regex engine's greedy match with backtracking is equivalent to maximal
munch.) -/
def matchGroup (cs : List Char) : Option (List Char × List Char) :=
  let g := cs.takeWhile isGroupChar
  if g.isEmpty then none else some (g, cs.dropWhile isGroupChar)

/-- Integer value of a digit run, as `float` would read digits before the
point. -/
def intVal (ds : List Char) : ℚ :=
  ds.foldl (fun n c => 10 * n + ((c.toNat : ℚ) - 48)) 0

/-- Fractional value of the digit run after the decimal point. -/
def fracVal (ds : List Char) : ℚ :=
  ds.foldr (fun c r => (((c.toNat : ℚ) - 48) + r) / 10) 0

/-- Unsigned part of Python `float()` on digit/dot strings: digits, an
optional `.` with further digits, at least one digit in total, nothing
else.  Returns `none` exactly when `float` raises `ValueError`. -/
def pyFloatUnsigned (t : List Char) : Option ℚ :=
  let ds₁ := t.takeWhile Char.isDigit
  let t₁ := t.dropWhile Char.isDigit
  match t₁ with
  | [] => if ds₁.isEmpty then none else some (intVal ds₁)
  | '.' :: t₂ =>
    let ds₂ := t₂.takeWhile Char.isDigit
    let t₃ := t₂.dropWhile Char.isDigit
    if t₃.isEmpty && !(ds₁.isEmpty && ds₂.isEmpty) then
      some (intVal ds₁ + fracVal ds₂)
    else none
  | _ => none

/-- Python `float()` restricted to strings over the characters `-`, `.`,
digits (the only characters a matched group can contain): an optional
leading `-`, then an unsigned decimal. -/
def pyFloat (g : List Char) : Option ℚ :=
  match g with
  | '-' :: t => (pyFloatUnsigned t).map fun v => -v
  | t => pyFloatUnsigned t

/-- The spec's `<num>` grammar, unsigned part: a nonempty string of digits
holding at most one decimal point and at least one digit. -/
def isSpecNumUnsigned (t : List Char) : Bool :=
  !t.isEmpty && t.all (fun c => c.isDigit || c = '.') &&
    decide (t.count '.' ≤ 1) && t.any Char.isDigit

/-- The spec's `<num>`: "an optionally-signed decimal (integer or with
fractional part, e.g. `-80.00`, `101`, `-0.00`)". -/
def isSpecNum (g : List Char) : Bool :=
  match g with
  | '-' :: t => isSpecNumUnsigned t
  | t => isSpecNumUnsigned t

/-- One field of the pose pattern: a leading literal, then a group, then
`float` conversion of the matched text. -/
def matchField (lit : List Char) (cs : List Char) : Option (ℚ × List Char) := do
  let rest ← matchLiteral lit cs
  let (g, rest') ← matchGroup rest
  let v ← pyFloat g
  pure (v, rest')

/-- The `re.match` step of `parse_pose_string` combined with the `float`
conversion of the six groups: the pattern
`{X ([-\d.]+), Y ([-\d.]+), Z ([-\d.]+), A ([-\d.]+), B ([-\d.]+), C ([-\d.]+)}`
anchored at the start of the string (trailing text allowed). -/
def parse_pose_match (s : String) : Option (ℚ × ℚ × ℚ × ℚ × ℚ × ℚ) := do
  let (x, r₁) ← matchField "\x7bX ".data s.data
  let (y, r₂) ← matchField ", Y ".data r₁
  let (z, r₃) ← matchField ", Z ".data r₂
  let (a, r₄) ← matchField ", A ".data r₃
  let (b, r₅) ← matchField ", B ".data r₄
  let (c, r₆) ← matchField ", C ".data r₅
  let _ ← matchLiteral "\x7d".data r₆
  pure (x, y, z, a, b, c)

/-- `parse_pose_string`: return the six parsed floats when the pattern
matches, raise `ValueError` otherwise. -/
def parse_pose_string (s : String) : Except PyErr (ℚ × ℚ × ℚ × ℚ × ℚ × ℚ) :=
  match parse_pose_match s with
  | some p => .ok p
  | none => .error .valueError

/-- The spec's acceptance condition for `parse`, written from its words:
the input begins with text matching
`{X <num>, Y <num>, Z <num>, A <num>, B <num>, C <num>}` anchored at the
literal start of the string (text after the closing brace is allowed),
each `<num>` an optionally-signed decimal, and the result is the 6-tuple
of the parsed numbers in field order (x, y, z, a, b, c). -/
def specMatches (s : String) (p : ℚ × ℚ × ℚ × ℚ × ℚ × ℚ) : Prop :=
  ∃ n₁ n₂ n₃ n₄ n₅ n₆ rest : List Char,
    s.data = "\x7bX ".data ++ n₁ ++ ", Y ".data ++ n₂ ++ ", Z ".data ++ n₃ ++
      ", A ".data ++ n₄ ++ ", B ".data ++ n₅ ++ ", C ".data ++ n₆ ++
      "\x7d".data ++ rest ∧
    isSpecNum n₁ = true ∧ isSpecNum n₂ = true ∧ isSpecNum n₃ = true ∧
      isSpecNum n₄ = true ∧ isSpecNum n₅ = true ∧ isSpecNum n₆ = true ∧
    pyFloat n₁ = some p.1 ∧ pyFloat n₂ = some p.2.1 ∧
      pyFloat n₃ = some p.2.2.1 ∧ pyFloat n₄ = some p.2.2.2.1 ∧
      pyFloat n₅ = some p.2.2.2.2.1 ∧ pyFloat n₆ = some p.2.2.2.2.2

end Kuka

noncomputable section

namespace Kuka

open Real Matrix

/-! ### TransformMath -/

/-- `np.radians`: degrees to radians. -/
def radians (d : ℝ) : ℝ := d * (π / 180)

/-- `np.degrees`: radians to degrees. -/
def degrees (r : ℝ) : ℝ := r * (180 / π)

/-- `np.arctan2 y x`: the angle of the point `(x, y)`, i.e. the principal
argument of the complex number `x + y·i` (in `(-π, π]`, with
`arctan2 0 0 = 0`). -/
def arctan2 (y x : ℝ) : ℝ := Complex.arg (x + y * Complex.I)

/-- Elementary rotation about Z. -/
def Rz (a : ℝ) : Matrix (Fin 3) (Fin 3) ℝ :=
  !![Real.cos a, -Real.sin a, 0;
     Real.sin a,  Real.cos a, 0;
     0,           0,          1]

/-- Elementary rotation about Y. -/
def Ry (b : ℝ) : Matrix (Fin 3) (Fin 3) ℝ :=
  !![Real.cos b, 0, Real.sin b;
     0,          1, 0;
     -Real.sin b, 0, Real.cos b]

/-- Elementary rotation about X. -/
def Rx (c : ℝ) : Matrix (Fin 3) (Fin 3) ℝ :=
  !![1, 0,          0;
     0, Real.cos c, -Real.sin c;
     0, Real.sin c,  Real.cos c]

/-- `create_transformation_matrix`: convert a, b, c to radians, compose
`R = Rz @ Ry @ Rx`, place `R` in the top-left 3×3 block of `eye(4)`,
`(x, y, z)` in the translation column, bottom row `(0,0,0,1)`. -/
def create_transformation_matrix (x y z a b c : ℝ) : Matrix (Fin 4) (Fin 4) ℝ :=
  let R := Rz (radians a) * Ry (radians b) * Rx (radians c)
  !![R 0 0, R 0 1, R 0 2, x;
     R 1 0, R 1 1, R 1 2, y;
     R 2 0, R 2 1, R 2 2, z;
     0,     0,     0,     1]

/-- `extract_pose_parameters`: read the translation column, compute
`sy = sqrt(T₀₀² + T₁₀²)`, branch on `sy < 1e-6`, extract the Euler angles
with `arctan2`, and convert them to degrees. -/
def extract_pose_parameters (T : Matrix (Fin 4) (Fin 4) ℝ) :
    ℝ × ℝ × ℝ × ℝ × ℝ × ℝ :=
  let x := T 0 3
  let y := T 1 3
  let z := T 2 3
  let sy := Real.sqrt (T 0 0 * T 0 0 + T 1 0 * T 1 0)
  if sy < 1e-6 then
    (x, y, z, degrees (arctan2 (-T 1 2) (T 1 1)), degrees (arctan2 (-T 2 0) sy),
      degrees 0)
  else
    (x, y, z, degrees (arctan2 (T 1 0) (T 0 0)), degrees (arctan2 (-T 2 0) sy),
      degrees (arctan2 (T 2 1) (T 2 2)))

/-- `invert_transformation`: `np.linalg.inv`. -/
def invert_transformation (T : Matrix (Fin 4) (Fin 4) ℝ) : Matrix (Fin 4) (Fin 4) ℝ :=
  T⁻¹

/-! ### ChainBuilder -/

/-- A pose: ordered 6-tuple (x, y, z, a, b, c). -/
abbrev Pose6 := ℝ × ℝ × ℝ × ℝ × ℝ × ℝ

/-- The parsed rational 6-tuple as a real pose (Python `float`s flow
unchanged from `parse_pose_string` into the transform math). -/
def toPose6 (q : ℚ × ℚ × ℚ × ℚ × ℚ × ℚ) : Pose6 :=
  ((q.1 : ℝ), (q.2.1 : ℝ), (q.2.2.1 : ℝ), (q.2.2.2.1 : ℝ), (q.2.2.2.2.1 : ℝ),
    (q.2.2.2.2.2 : ℝ))

/-- `create_transformation_matrix(*pose)`. -/
def toTransform (p : Pose6) : Matrix (Fin 4) (Fin 4) ℝ :=
  create_transformation_matrix p.1 p.2.1 p.2.2.1 p.2.2.2.1 p.2.2.2.2.1 p.2.2.2.2.2

/-- A pose argument accepted by `chain_poses`: a notation string or a
6-tuple (`isinstance(pose, str)` dispatch). -/
inductive PoseInput
  | str (s : String)
  | tup (p : Pose6)

/-- The `if isinstance(pose, str): pose = parse_pose_string(pose)` step. -/
def resolvePoseInput : PoseInput → Except PyErr Pose6
  | .tup p => .ok p
  | .str s =>
    match parse_pose_string s with
    | .ok q => .ok (toPose6 q)
    | .error e => .error e

/-- Replace a string pose by its parsed 6-tuple (left unchanged when the
string does not parse). -/
def substPoseInput : PoseInput → PoseInput
  | .str s =>
    match parse_pose_string s with
    | .ok q => .tup (toPose6 q)
    | .error _ => .str s
  | .tup p => .tup p

/-- The individual transform of one chain entry: `toTransform` of its pose,
inverted when the entry's invert flag is set. -/
def individual_transform (e : Pose6 × Bool) : Matrix (Fin 4) (Fin 4) ℝ :=
  if e.2 then invert_transformation (toTransform e.1) else toTransform e.1

/-- Loop body of `chain_poses`, carrying `current_T`. -/
def chain_poses_aux (cur : Matrix (Fin 4) (Fin 4) ℝ) :
    List (PoseInput × Bool) → Except PyErr (List (Matrix (Fin 4) (Fin 4) ℝ × Bool))
  | [] => .ok []
  | (pose, inv) :: rest =>
    match resolvePoseInput pose with
    | .error e => .error e
    | .ok p =>
      let T := toTransform p
      let T := if inv then invert_transformation T else T
      let current := cur * T
      match chain_poses_aux current rest with
      | .error e => .error e
      | .ok out => .ok ((current, inv) :: out)

/-- `chain_poses`: fold the entries left to right starting from `eye(4)`,
appending `(current_T.copy(), invert)` at each step. -/
def chain_poses (poses : List (PoseInput × Bool)) :
    Except PyErr (List (Matrix (Fin 4) (Fin 4) ℝ × Bool)) :=
  chain_poses_aux 1 poses

/-- Reference scan of pure-tuple entries (proof helper). -/
def scanChain (cur : Matrix (Fin 4) (Fin 4) ℝ) :
    List (Pose6 × Bool) → List (Matrix (Fin 4) (Fin 4) ℝ × Bool)
  | [] => []
  | e :: rest =>
    let c := cur * individual_transform e
    (c, e.2) :: scanChain c rest

/-! ### SceneMetrics -/

/-- Translation column of a homogeneous transform. -/
def translation (T : Matrix (Fin 4) (Fin 4) ℝ) : Fin 3 → ℝ :=
  fun i => T i.castSucc 3

/-- `calculate_extents`: `np.vstack` of the translation columns (raising
`ValueError` on an empty chain, as `np.vstack([])` does), then `np.min` and
`np.max` along axis 0. -/
def calculate_extents (chained_poses : List (Matrix (Fin 4) (Fin 4) ℝ × Bool)) :
    Except PyErr ((Fin 3 → ℝ) × (Fin 3 → ℝ)) :=
  match chained_poses.map fun e => translation e.1 with
  | [] => .error .valueError
  | p :: ps =>
    .ok (fun j => (ps.map fun q => q j).foldl min (p j),
      fun j => (ps.map fun q => q j).foldl max (p j))

/-! ### Frontend consumption of the chain -/

/-- The three poses `KUKAPoseVisualizer.__init__` installs in `self.poses`. -/
def frontend_default_poses : List (PoseInput × Bool) :=
  [(.tup (-350.50, 2954.42, 2720.94, 0.00, -0.00, -80.00), false),
   (.tup (101.00, -0.00, 2200.00, 90.00, -10.00, -90.00), false),
   (.tup (3000.00, -0.00, 451.5, 0.00, 90.00, 0.00), false)]

/-- Python tuple unpacking `a, b = l` of a list into two names: succeeds
exactly on two-element lists, otherwise raises `ValueError`. -/
def unpack_pair {α : Type} : List α → Except PyErr (α × α)
  | [a, b] => .ok (a, b)
  | _ => .error .valueError

/-- The statement `chained_poses, resulting_pose = chain_poses(self.poses)`
at the top of `KUKAPoseVisualizer.visualize_poses`. -/
def visualize_poses_unpack (poses : List (PoseInput × Bool)) :
    Except PyErr ((Matrix (Fin 4) (Fin 4) ℝ × Bool) × (Matrix (Fin 4) (Fin 4) ℝ × Bool)) :=
  match chain_poses poses with
  | .error e => .error e
  | .ok chained => unpack_pair chained

/-- Sample transform used to instantiate hypotheses of the extraction
theorems: identity rotation, translation (5, 6, 7). -/
def witnessT : Matrix (Fin 4) (Fin 4) ℝ :=
  !![1, 0, 0, 5;
     0, 1, 0, 6;
     0, 0, 1, 7;
     0, 0, 0, 1]

end Kuka

end

/-! ### Theorems -/

namespace Kuka

open Real Matrix

/-! ### Parser lemmas -/

lemma matchLiteral_eq_some :
    ∀ (lit cs rest : List Char), matchLiteral lit cs = some rest ↔ cs = lit ++ rest := by
  intro lit
  induction lit with
  | nil =>
    intro cs rest
    simp [matchLiteral]
  | cons l ls ih =>
    intro cs rest
    cases cs with
    | nil => simp [matchLiteral]
    | cons c cs' =>
      rw [matchLiteral]
      by_cases hc : c = l
      · subst hc
        rw [if_pos rfl, ih]
        simp
      · rw [if_neg hc]
        simp [hc]

lemma dropWhile_head_false {p : Char → Bool} :
    ∀ (l : List Char) d ds, l.dropWhile p = d :: ds → p d = false := by
  intro l
  induction l with
  | nil => intro d ds h; simp [List.dropWhile] at h
  | cons a l ih =>
    intro d ds h
    rw [List.dropWhile_cons] at h
    by_cases hp : p a
    · rw [if_pos hp] at h
      exact ih d ds h
    · rw [if_neg hp] at h
      obtain ⟨rfl, -⟩ := List.cons.inj h
      exact Bool.not_eq_true _ ▸ hp

lemma span_exact {g r : List Char} (hg : ∀ ch ∈ g, isGroupChar ch = true)
    (hr : ∀ d ds, r = d :: ds → isGroupChar d = false) :
    (g ++ r).takeWhile isGroupChar = g ∧ (g ++ r).dropWhile isGroupChar = r := by
  induction g with
  | nil =>
    simp only [List.nil_append]
    cases r with
    | nil => simp
    | cons d ds =>
      have hd := hr d ds rfl
      constructor
      · simp [List.takeWhile_cons, hd]
      · simp [List.dropWhile_cons, hd]
  | cons a g ih =>
    have ha : isGroupChar a = true := hg a (List.mem_cons_self a g)
    have ih' := ih fun ch hch => hg ch (List.mem_cons_of_mem a hch)
    constructor
    · simp [List.takeWhile_cons, ha, ih'.1]
    · simp [List.dropWhile_cons, ha, ih'.2]

lemma matchGroup_eq_some {cs g r : List Char} :
    matchGroup cs = some (g, r) ↔
      g = cs.takeWhile isGroupChar ∧ r = cs.dropWhile isGroupChar ∧ g ≠ [] := by
  simp only [matchGroup]
  by_cases h : cs.takeWhile isGroupChar = []
  · rw [if_pos (List.isEmpty_iff.mpr h)]
    constructor
    · intro he
      exact Option.noConfusion he
    · rintro ⟨hg, -, hne⟩
      exact absurd (hg.trans h) hne
  · rw [if_neg fun hc => h (List.isEmpty_iff.mp hc)]
    constructor
    · intro he
      obtain ⟨h1, h2⟩ := Prod.mk.inj (Option.some.inj he)
      exact ⟨h1.symm, h2.symm, h1 ▸ h⟩
    · rintro ⟨rfl, rfl, -⟩
      rfl

lemma matchGroup_of_span {g r : List Char} (hg : ∀ ch ∈ g, isGroupChar ch = true)
    (hne : g ≠ []) (hr : ∀ d ds, r = d :: ds → isGroupChar d = false) :
    matchGroup (g ++ r) = some (g, r) := by
  obtain ⟨h₁, h₂⟩ := span_exact hg hr
  exact matchGroup_eq_some.mpr ⟨h₁.symm, h₂.symm, hne⟩

lemma isSpecNumUnsigned_iff {t : List Char} :
    isSpecNumUnsigned t = true ↔
      t ≠ [] ∧ (∀ c ∈ t, Char.isDigit c = true ∨ c = '.') ∧
        t.count '.' ≤ 1 ∧ ∃ c ∈ t, Char.isDigit c = true := by
  simp only [isSpecNumUnsigned, Bool.and_eq_true, List.all_eq_true, List.any_eq_true,
    decide_eq_true_eq, Bool.or_eq_true, Bool.not_eq_true', List.isEmpty_eq_false,
    and_assoc]

lemma dot_not_digit : Char.isDigit '.' = false := by decide

lemma pyFloatUnsigned_sound {t : List Char} {v : ℚ} (h : pyFloatUnsigned t = some v) :
    isSpecNumUnsigned t = true := by
  simp only [pyFloatUnsigned] at h
  split at h
  · rename_i heq
    by_cases he : (t.takeWhile Char.isDigit).isEmpty = true
    · rw [if_pos he] at h
      exact Option.noConfusion h
    · have hall : ∀ x ∈ t, Char.isDigit x = true := List.dropWhile_eq_nil_iff.mp heq
      have hne : t ≠ [] := by
        intro h0
        subst h0
        exact he rfl
      refine isSpecNumUnsigned_iff.mpr ⟨hne, fun c hc => Or.inl (hall c hc), ?_, ?_⟩
      · have hnd : '.' ∉ t := fun hdot => by
          have h2 := hall '.' hdot
          rw [dot_not_digit] at h2
          exact Bool.noConfusion h2
        rw [List.count_eq_zero.mpr hnd]
        exact Nat.zero_le 1
      · cases t with
        | nil => exact absurd rfl hne
        | cons a t' => exact ⟨a, List.mem_cons_self a t', hall a (List.mem_cons_self a t')⟩
  · rename_i t₂ heq
    by_cases hc : ((t₂.dropWhile Char.isDigit).isEmpty &&
        !((t.takeWhile Char.isDigit).isEmpty && (t₂.takeWhile Char.isDigit).isEmpty)) = true
    · have hsplit : t = t.takeWhile Char.isDigit ++ '.' :: t₂ := by
        conv_lhs => rw [← List.takeWhile_append_dropWhile Char.isDigit t]
        rw [heq]
      rw [Bool.and_eq_true] at hc
      obtain ⟨h1, h2⟩ := hc
      have ht₂ : ∀ x ∈ t₂, Char.isDigit x = true :=
        List.dropWhile_eq_nil_iff.mp (List.isEmpty_iff.mp h1)
      have hds : ∀ x ∈ t.takeWhile Char.isDigit, Char.isDigit x = true :=
        fun x hx => List.mem_takeWhile_imp hx
      refine isSpecNumUnsigned_iff.mpr ⟨?_, ?_, ?_, ?_⟩
      · rw [hsplit]
        simp
      · intro c hcmem
        rw [hsplit] at hcmem
        rcases List.mem_append.mp hcmem with h' | h'
        · exact Or.inl (hds c h')
        · rcases List.mem_cons.mp h' with h'' | h''
          · exact Or.inr h''
          · exact Or.inl (ht₂ c h'')
      · have hnd1 : '.' ∉ t.takeWhile Char.isDigit := fun hx => by
          have h3 := hds '.' hx
          rw [dot_not_digit] at h3
          exact Bool.noConfusion h3
        have hnd2 : '.' ∉ t₂ := fun hx => by
          have h3 := ht₂ '.' hx
          rw [dot_not_digit] at h3
          exact Bool.noConfusion h3
        rw [hsplit, List.count_append, List.count_eq_zero.mpr hnd1,
          List.count_cons, List.count_eq_zero.mpr hnd2]
        simp
      · rw [Bool.not_eq_true'] at h2
        rcases Bool.and_eq_false_iff.mp h2 with h4 | h4
        · rcases hx : t.takeWhile Char.isDigit with _ | ⟨a, u⟩
          · rw [hx] at h4
            exact Bool.noConfusion h4
          · refine ⟨a, ?_, hds a (hx ▸ List.mem_cons_self a u)⟩
            rw [hsplit, hx]
            exact List.mem_append_left _ (List.mem_cons_self a u)
        · rcases hx : t₂.takeWhile Char.isDigit with _ | ⟨a, u⟩
          · rw [hx] at h4
            exact Bool.noConfusion h4
          · have ha : a ∈ t₂ :=
              List.takeWhile_subset Char.isDigit (hx ▸ List.mem_cons_self a u)
            refine ⟨a, ?_, ht₂ a ha⟩
            rw [hsplit]
            exact List.mem_append_right _ (List.mem_cons_of_mem _ ha)
    · rw [if_neg hc] at h
      exact Option.noConfusion h
  · exact Option.noConfusion h

lemma pyFloatUnsigned_complete {t : List Char} (h : isSpecNumUnsigned t = true) :
    ∃ v, pyFloatUnsigned t = some v := by
  obtain ⟨hne, hall, hcount, xd, hxd, hxdig⟩ := isSpecNumUnsigned_iff.mp h
  rcases hd : t.dropWhile Char.isDigit with _ | ⟨d, t₂⟩
  · have hall2 : ∀ x ∈ t, Char.isDigit x = true := List.dropWhile_eq_nil_iff.mp hd
    have htake : t.takeWhile Char.isDigit = t := List.takeWhile_eq_self_iff.mpr hall2
    refine ⟨intVal t, ?_⟩
    simp only [pyFloatUnsigned, hd, htake]
    rw [if_neg (by simpa [List.isEmpty_iff] using hne)]
  · have hdfalse : Char.isDigit d = false := dropWhile_head_false t d t₂ hd
    have hsplit : t = t.takeWhile Char.isDigit ++ d :: t₂ := by
      conv_lhs => rw [← List.takeWhile_append_dropWhile Char.isDigit t]
      rw [hd]
    have hdmem : d ∈ t := by
      rw [hsplit]
      exact List.mem_append_right _ (List.mem_cons_self d t₂)
    have hdot : d = '.' := by
      rcases hall d hdmem with h' | h'
      · rw [hdfalse] at h'
        exact Bool.noConfusion h'
      · exact h'
    subst hdot
    have hnd1 : '.' ∉ t.takeWhile Char.isDigit := fun hx => by
      have h3 := List.mem_takeWhile_imp hx
      rw [dot_not_digit] at h3
      exact Bool.noConfusion h3
    have hcount2 : '.' ∉ t₂ := by
      intro hx
      rw [hsplit, List.count_append, List.count_cons_self,
        List.count_eq_zero.mpr hnd1] at hcount
      have h0 : List.count '.' t₂ = 0 := by omega
      exact (List.count_eq_zero.mp h0) hx
    have ht₂dig : ∀ x ∈ t₂, Char.isDigit x = true := by
      intro x hx
      have hxt : x ∈ t := by
        rw [hsplit]
        exact List.mem_append_right _ (List.mem_cons_of_mem _ hx)
      rcases hall x hxt with h' | h'
      · exact h'
      · subst h'
        exact absurd hx hcount2
    have ht₃ : t₂.dropWhile Char.isDigit = [] := List.dropWhile_eq_nil_iff.mpr ht₂dig
    have ht₂take : t₂.takeWhile Char.isDigit = t₂ := List.takeWhile_eq_self_iff.mpr ht₂dig
    have hor : t.takeWhile Char.isDigit ≠ [] ∨ t₂ ≠ [] := by
      rw [hsplit] at hxd
      rcases List.mem_append.mp hxd with h' | h'
      · exact Or.inl (List.ne_nil_of_mem h')
      · rcases List.mem_cons.mp h' with h'' | h''
        · subst h''
          rw [dot_not_digit] at hxdig
          exact Bool.noConfusion hxdig
        · exact Or.inr (List.ne_nil_of_mem h'')
    refine ⟨intVal (t.takeWhile Char.isDigit) + fracVal t₂, ?_⟩
    simp only [pyFloatUnsigned, hd, ht₃, ht₂take]
    rw [if_pos]
    rcases hor with h' | h'
    · simp [List.isEmpty_iff, h']
    · simp [List.isEmpty_iff, h']

lemma pyFloat_some_iff {g : List Char} :
    (∃ v, pyFloat g = some v) ↔ isSpecNum g = true := by
  rcases g with _ | ⟨c, t⟩
  · show (∃ v, pyFloatUnsigned [] = some v) ↔ isSpecNumUnsigned [] = true
    constructor
    · rintro ⟨v, hv⟩
      exact pyFloatUnsigned_sound hv
    · exact pyFloatUnsigned_complete
  · by_cases hc : c = '-'
    · subst hc
      show (∃ v, (pyFloatUnsigned t).map (fun v => -v) = some v) ↔
        isSpecNumUnsigned t = true
      constructor
      · rintro ⟨v, hv⟩
        obtain ⟨u, hu, -⟩ := Option.map_eq_some'.mp hv
        exact pyFloatUnsigned_sound hu
      · intro h
        obtain ⟨v, hv⟩ := pyFloatUnsigned_complete h
        exact ⟨-v, by rw [hv]; rfl⟩
    · have h1 : pyFloat (c :: t) = pyFloatUnsigned (c :: t) := by
        rw [pyFloat.eq_def]
        split
        · rename_i t' heq
          obtain ⟨hc', -⟩ := List.cons.inj heq
          exact absurd hc' hc
        · rfl
      have h2 : isSpecNum (c :: t) = isSpecNumUnsigned (c :: t) := by
        rw [isSpecNum.eq_def]
        split
        · rename_i t' heq
          obtain ⟨hc', -⟩ := List.cons.inj heq
          exact absurd hc' hc
        · rfl
      rw [h1, h2]
      constructor
      · rintro ⟨v, hv⟩
        exact pyFloatUnsigned_sound hv
      · exact pyFloatUnsigned_complete

lemma isGroupChar_of_digit_or_dot {c : Char} (h : Char.isDigit c = true ∨ c = '.') :
    isGroupChar c = true := by
  rcases h with h | h
  · simp [isGroupChar, h]
  · subst h
    decide

lemma isSpecNum_not_neg {c : Char} {t : List Char} (hc : c ≠ '-') :
    isSpecNum (c :: t) = isSpecNumUnsigned (c :: t) := by
  rw [isSpecNum.eq_def]
  split
  · rename_i t' heq
    obtain ⟨hc', -⟩ := List.cons.inj heq
    exact absurd hc' hc
  · rfl

lemma isSpecNum_chars {g : List Char} (h : isSpecNum g = true) :
    ∀ ch ∈ g, isGroupChar ch = true := by
  rcases g with _ | ⟨c, t⟩
  · intro ch hch
    exact absurd hch (List.not_mem_nil ch)
  · by_cases hc : c = '-'
    · subst hc
      have h' : isSpecNumUnsigned t = true := h
      obtain ⟨-, hall, -, -⟩ := isSpecNumUnsigned_iff.mp h'
      intro ch hch
      rcases List.mem_cons.mp hch with rfl | hch'
      · decide
      · exact isGroupChar_of_digit_or_dot (hall ch hch')
    · rw [isSpecNum_not_neg hc] at h
      obtain ⟨-, hall, -, -⟩ := isSpecNumUnsigned_iff.mp h
      intro ch hch
      exact isGroupChar_of_digit_or_dot (hall ch hch)

lemma isSpecNum_ne_nil {g : List Char} (h : isSpecNum g = true) : g ≠ [] := by
  rintro rfl
  exact absurd h (by decide)

lemma head_not_group_of_head {r : List Char} {c : Char} (hc : isGroupChar c = false)
    (hhead : ∃ x, r = c :: x) : ∀ d ds, r = d :: ds → isGroupChar d = false := by
  obtain ⟨x, rfl⟩ := hhead
  intro d ds h
  obtain ⟨h1, -⟩ := List.cons.inj h
  rw [← h1]
  exact hc

lemma matchField_sound {lit cs : List Char} {v : ℚ} {r : List Char}
    (h : matchField lit cs = some (v, r)) :
    ∃ g, cs = lit ++ (g ++ r) ∧ g ≠ [] ∧ (∀ ch ∈ g, isGroupChar ch = true) ∧
      pyFloat g = some v := by
  simp only [matchField, Option.bind_eq_bind, Option.bind_eq_some, Option.pure_def,
    Option.some.injEq] at h
  obtain ⟨rest, hrest, ⟨g, r'⟩, hgr, v', hv', hvr⟩ := h
  obtain ⟨hv, hr⟩ := Prod.mk.inj hvr
  subst hv
  subst hr
  obtain ⟨hg, hr', hne⟩ := matchGroup_eq_some.mp hgr
  refine ⟨g, ?_, hne, ?_, hv'⟩
  · rw [(matchLiteral_eq_some lit cs rest).mp hrest]
    congr 1
    rw [hg, hr']
    exact (List.takeWhile_append_dropWhile isGroupChar rest).symm
  · intro ch hch
    rw [hg] at hch
    exact List.mem_takeWhile_imp hch

lemma matchField_complete {lit g r : List Char} {v : ℚ}
    (hg : ∀ ch ∈ g, isGroupChar ch = true) (hne : g ≠ [])
    (hr : ∀ d ds, r = d :: ds → isGroupChar d = false)
    (hv : pyFloat g = some v) :
    matchField lit (lit ++ (g ++ r)) = some (v, r) := by
  simp only [matchField, Option.bind_eq_bind, Option.bind_eq_some, Option.pure_def,
    Option.some.injEq]
  exact ⟨g ++ r, (matchLiteral_eq_some lit (lit ++ (g ++ r)) (g ++ r)).mpr rfl,
    (g, r), matchGroup_of_span hg hne hr, v, hv, rfl⟩

lemma parse_pose_match_eq_some_iff {s : String} {p : ℚ × ℚ × ℚ × ℚ × ℚ × ℚ} :
    parse_pose_match s = some p ↔ specMatches s p := by
  constructor
  · intro h
    simp only [parse_pose_match, Option.bind_eq_bind, Option.bind_eq_some,
      Option.pure_def, Option.some.injEq] at h
    obtain ⟨⟨v₁, r₁⟩, h₁, ⟨v₂, r₂⟩, h₂, ⟨v₃, r₃⟩, h₃, ⟨v₄, r₄⟩, h₄, ⟨v₅, r₅⟩, h₅,
      ⟨v₆, r₆⟩, h₆, rest, h₇, hp⟩ := h
    obtain ⟨g₁, hs₁, hne₁, hch₁, hf₁⟩ := matchField_sound h₁
    obtain ⟨g₂, hs₂, hne₂, hch₂, hf₂⟩ := matchField_sound h₂
    obtain ⟨g₃, hs₃, hne₃, hch₃, hf₃⟩ := matchField_sound h₃
    obtain ⟨g₄, hs₄, hne₄, hch₄, hf₄⟩ := matchField_sound h₄
    obtain ⟨g₅, hs₅, hne₅, hch₅, hf₅⟩ := matchField_sound h₅
    obtain ⟨g₆, hs₆, hne₆, hch₆, hf₆⟩ := matchField_sound h₆
    dsimp only at hs₂ hs₃ hs₄ hs₅ hs₆ h₇
    have hr₆ : r₆ = "\x7d".data ++ rest := (matchLiteral_eq_some _ _ _).mp h₇
    subst hp
    refine ⟨g₁, g₂, g₃, g₄, g₅, g₆, rest, ?_,
      pyFloat_some_iff.mp ⟨v₁, hf₁⟩, pyFloat_some_iff.mp ⟨v₂, hf₂⟩,
      pyFloat_some_iff.mp ⟨v₃, hf₃⟩, pyFloat_some_iff.mp ⟨v₄, hf₄⟩,
      pyFloat_some_iff.mp ⟨v₅, hf₅⟩, pyFloat_some_iff.mp ⟨v₆, hf₆⟩,
      hf₁, hf₂, hf₃, hf₄, hf₅, hf₆⟩
    rw [hs₁, hs₂, hs₃, hs₄, hs₅, hs₆, hr₆]
    simp [List.append_assoc]
  · rintro ⟨n₁, n₂, n₃, n₄, n₅, n₆, rest, hs, hn₁, hn₂, hn₃, hn₄, hn₅, hn₆,
      hf₁, hf₂, hf₃, hf₄, hf₅, hf₆⟩
    have hs' : s.data = "\x7bX ".data ++ (n₁ ++ (", Y ".data ++ (n₂ ++ (", Z ".data ++
        (n₃ ++ (", A ".data ++ (n₄ ++ (", B ".data ++ (n₅ ++ (", C ".data ++
        (n₆ ++ ("\x7d".data ++ rest)))))))))))) := by
      rw [hs]
      simp [List.append_assoc]
    simp only [parse_pose_match, Option.bind_eq_bind, Option.bind_eq_some,
      Option.pure_def, Option.some.injEq]
    refine ⟨(p.1, ", Y ".data ++ (n₂ ++ (", Z ".data ++ (n₃ ++ (", A ".data ++
      (n₄ ++ (", B ".data ++ (n₅ ++ (", C ".data ++ (n₆ ++ ("\x7d".data ++
      rest))))))))))), ?_, ?_⟩
    · rw [hs']
      exact matchField_complete (isSpecNum_chars hn₁) (isSpecNum_ne_nil hn₁)
        (head_not_group_of_head (by decide) ⟨_, rfl⟩) hf₁
    refine ⟨(p.2.1, ", Z ".data ++ (n₃ ++ (", A ".data ++ (n₄ ++ (", B ".data ++
      (n₅ ++ (", C ".data ++ (n₆ ++ ("\x7d".data ++ rest))))))))),
      matchField_complete (isSpecNum_chars hn₂) (isSpecNum_ne_nil hn₂)
        (head_not_group_of_head (by decide) ⟨_, rfl⟩) hf₂, ?_⟩
    refine ⟨(p.2.2.1, ", A ".data ++ (n₄ ++ (", B ".data ++ (n₅ ++ (", C ".data ++
      (n₆ ++ ("\x7d".data ++ rest))))))),
      matchField_complete (isSpecNum_chars hn₃) (isSpecNum_ne_nil hn₃)
        (head_not_group_of_head (by decide) ⟨_, rfl⟩) hf₃, ?_⟩
    refine ⟨(p.2.2.2.1, ", B ".data ++ (n₅ ++ (", C ".data ++ (n₆ ++ ("\x7d".data ++
      rest))))),
      matchField_complete (isSpecNum_chars hn₄) (isSpecNum_ne_nil hn₄)
        (head_not_group_of_head (by decide) ⟨_, rfl⟩) hf₄, ?_⟩
    refine ⟨(p.2.2.2.2.1, ", C ".data ++ (n₆ ++ ("\x7d".data ++ rest))),
      matchField_complete (isSpecNum_chars hn₅) (isSpecNum_ne_nil hn₅)
        (head_not_group_of_head (by decide) ⟨_, rfl⟩) hf₅, ?_⟩
    refine ⟨(p.2.2.2.2.2, "\x7d".data ++ rest),
      matchField_complete (isSpecNum_chars hn₆) (isSpecNum_ne_nil hn₆)
        (head_not_group_of_head (by decide) ⟨_, rfl⟩) hf₆, ?_⟩
    exact ⟨rest, (matchLiteral_eq_some _ _ _).mpr rfl, rfl⟩

lemma parse_pose_string_error_eq {s : String} {e : PyErr}
    (h : parse_pose_string s = .error e) : e = PyErr.valueError := by
  cases hm : parse_pose_match s with
  | none =>
    rw [parse_pose_string, hm] at h
    exact (Except.error.inj h).symm
  | some q =>
    rw [parse_pose_string, hm] at h
    exact Except.noConfusion h

lemma resolvePoseInput_error {pi : PoseInput} {e : PyErr}
    (h : resolvePoseInput pi = .error e) : e = PyErr.valueError := by
  cases pi with
  | tup p => exact Except.noConfusion h
  | str s =>
    cases hp : parse_pose_string s with
    | ok q =>
      rw [resolvePoseInput, hp] at h
      exact Except.noConfusion h
    | error e' =>
      rw [resolvePoseInput, hp] at h
      rw [← Except.error.inj h]
      exact parse_pose_string_error_eq hp

lemma substPoseInput_tup (p : Pose6) : substPoseInput (.tup p) = .tup p := rfl

lemma substPoseInput_str_ok {s : String} {q : ℚ × ℚ × ℚ × ℚ × ℚ × ℚ}
    (hq : parse_pose_string s = .ok q) :
    substPoseInput (.str s) = .tup (toPose6 q) := by
  simp only [substPoseInput, hq]

lemma chain_poses_aux_subst (entries : List (PoseInput × Bool)) :
    ∀ cur, (∀ s b, (PoseInput.str s, b) ∈ entries → ∃ q, parse_pose_string s = .ok q) →
      chain_poses_aux cur entries =
        chain_poses_aux cur (entries.map fun e => (substPoseInput e.1, e.2)) := by
  induction entries with
  | nil =>
    intro cur h
    rfl
  | cons e rest ih =>
    intro cur h
    obtain ⟨pi, b⟩ := e
    have hrest := fun s b' hm => h s b' (List.mem_cons_of_mem _ hm)
    cases pi with
    | tup p =>
      simp only [List.map_cons, substPoseInput_tup, chain_poses_aux, resolvePoseInput]
      rw [ih _ hrest]
    | str s =>
      obtain ⟨q, hq⟩ := h s b (List.mem_cons_self _ _)
      simp only [List.map_cons, substPoseInput_str_ok hq, chain_poses_aux,
        resolvePoseInput, hq]
      rw [ih _ hrest]

lemma chain_poses_aux_err (entries : List (PoseInput × Bool)) :
    ∀ cur, (∃ s b, (PoseInput.str s, b) ∈ entries ∧
        parse_pose_string s = .error PyErr.valueError) →
      chain_poses_aux cur entries = .error PyErr.valueError := by
  induction entries with
  | nil =>
    intro cur h
    obtain ⟨s, b, hm, -⟩ := h
    exact absurd hm (List.not_mem_nil _)
  | cons e rest ih =>
    intro cur h
    obtain ⟨s, b, hm, herr⟩ := h
    obtain ⟨pi, b'⟩ := e
    rcases List.mem_cons.mp hm with heq | hm'
    · obtain ⟨hpi, -⟩ := Prod.mk.inj heq
      rw [← hpi]
      simp only [chain_poses_aux, resolvePoseInput, herr]
    · cases hres : resolvePoseInput pi with
      | error e' =>
        simp only [chain_poses_aux, hres]
        rw [resolvePoseInput_error hres]
      | ok p =>
        simp only [chain_poses_aux, hres]
        rw [ih _ ⟨s, b, hm', herr⟩]

lemma chain_poses_aux_tup (entries : List (Pose6 × Bool)) :
    ∀ cur, chain_poses_aux cur (entries.map fun e => (PoseInput.tup e.1, e.2)) =
      .ok (scanChain cur entries) := by
  induction entries with
  | nil => intro cur; rfl
  | cons e rest ih =>
    intro cur
    obtain ⟨p, b⟩ := e
    simp [chain_poses_aux, resolvePoseInput, scanChain, individual_transform, ih]

lemma scanChain_length (entries : List (Pose6 × Bool)) :
    ∀ cur, (scanChain cur entries).length = entries.length := by
  induction entries with
  | nil => intro cur; rfl
  | cons e rest ih => intro cur; simp [scanChain, ih]

lemma scanChain_getElem (entries : List (Pose6 × Bool)) :
    ∀ (cur : Matrix (Fin 4) (Fin 4) ℝ) (i : ℕ) (h : i < entries.length),
      (scanChain cur entries)[i]? =
        some (cur * ((entries.take (i + 1)).map individual_transform).prod,
          (entries.get ⟨i, h⟩).2) := by
  induction entries with
  | nil => intro cur i h; exact absurd h (Nat.not_lt_zero i)
  | cons e rest ih =>
    intro cur i h
    cases i with
    | zero => simp [scanChain]
    | succ n =>
      have hn : n < rest.length := Nat.lt_of_succ_lt_succ h
      simp [scanChain, ih _ n hn, mul_assoc]

/-- **C1.** Chaining an ordered sequence of N pose entries yields exactly N
chained poses, and the i-th cumulative transform is the left-to-right
product, starting from the identity, of the individual transforms of
entries 0..i (each inverted when its flag is set), paired with the entry's
original invert flag; the empty input yields the empty output. -/
theorem chain_poses_cumulative (entries : List (Pose6 × Bool)) :
    ∃ out, chain_poses (entries.map fun e => (PoseInput.tup e.1, e.2)) = .ok out ∧
      out.length = entries.length ∧
      ∀ (i : ℕ) (h : i < entries.length),
        out[i]? = some (((entries.take (i + 1)).map individual_transform).prod,
          (entries.get ⟨i, h⟩).2) := by
  refine ⟨scanChain 1 entries, ?_, scanChain_length entries 1, ?_⟩
  · simpa [chain_poses] using chain_poses_aux_tup entries 1
  · intro i h
    rw [scanChain_getElem entries 1 i h, one_mul]

/-- Instantiation of the chain theorem at a concrete one-entry sequence. -/
theorem chain_poses_cumulative_witness :
    ∃ out, chain_poses [(PoseInput.tup (0, 0, 0, 0, 0, 0), false)] = .ok out ∧
      out.length = [((0, 0, 0, 0, 0, 0), false)].length ∧
      ∀ (i : ℕ) (h : i < [(((0 : ℝ), (0 : ℝ), (0 : ℝ), (0 : ℝ), (0 : ℝ), (0 : ℝ)), false)].length),
        out[i]? = some ((([(((0 : ℝ), (0 : ℝ), (0 : ℝ), (0 : ℝ), (0 : ℝ), (0 : ℝ)), false)].take (i + 1)).map
            individual_transform).prod,
          ([(((0 : ℝ), (0 : ℝ), (0 : ℝ), (0 : ℝ), (0 : ℝ), (0 : ℝ)), false)].get ⟨i, h⟩).2) :=
  chain_poses_cumulative [((0, 0, 0, 0, 0, 0), false)]

/-- **C9 (code evaluation).** `chain_poses` on the frontend's default pose
list succeeds with three chained poses, but the frontend's
`chained_poses, resulting_pose = chain_poses(self.poses)` unpacking raises
`ValueError` there (a list of length 3 cannot unpack into two names), and
raises on the empty list as well, so no resulting pose is ever exposed. -/
theorem visualize_poses_unpack_fails :
    (∃ out, chain_poses frontend_default_poses = .ok out ∧ out.length = 3) ∧
      visualize_poses_unpack frontend_default_poses = .error .valueError ∧
      visualize_poses_unpack [] = .error .valueError :=
  ⟨⟨_, rfl, rfl⟩, rfl, rfl⟩

lemma Rz_det (a : ℝ) : (Rz a).det = 1 := by
  simp [Rz, Matrix.det_fin_three]
  nlinarith [Real.sin_sq_add_cos_sq a]

lemma Ry_det (b : ℝ) : (Ry b).det = 1 := by
  simp [Ry, Matrix.det_fin_three]
  nlinarith [Real.sin_sq_add_cos_sq b]

lemma Rx_det (c : ℝ) : (Rx c).det = 1 := by
  simp [Rx, Matrix.det_fin_three]
  nlinarith [Real.sin_sq_add_cos_sq c]

lemma create_submatrix (x y z a b c : ℝ) :
    (create_transformation_matrix x y z a b c).submatrix
        (3 : Fin 4).succAbove (3 : Fin 4).succAbove =
      Rz (radians a) * Ry (radians b) * Rx (radians c) := by
  ext i j
  fin_cases i <;> fin_cases j <;> rfl

lemma create_det (x y z a b c : ℝ) :
    (create_transformation_matrix x y z a b c).det = 1 := by
  rw [Matrix.det_succ_row _ 3, Fin.sum_univ_four]
  have h0 : create_transformation_matrix x y z a b c 3 0 = 0 := rfl
  have h1 : create_transformation_matrix x y z a b c 3 1 = 0 := rfl
  have h2 : create_transformation_matrix x y z a b c 3 2 = 0 := rfl
  have h3 : create_transformation_matrix x y z a b c 3 3 = 1 := rfl
  rw [h0, h1, h2, h3, create_submatrix, Matrix.det_mul, Matrix.det_mul,
    Rz_det, Ry_det, Rx_det]
  norm_num

lemma create_mul_inv (x y z a b c : ℝ) :
    create_transformation_matrix x y z a b c *
      invert_transformation (create_transformation_matrix x y z a b c) = 1 := by
  apply Matrix.mul_nonsing_inv
  rw [create_det]
  exact isUnit_one

/-- **C6.** Chaining `[(p, false), (p, true)]` gives cumulative transforms
`[T, T · T⁻¹] = [T, Identity]`: the final cumulative transform is exactly
the 4×4 identity, because `invert_transformation` is the exact matrix
inverse of the (always invertible, determinant-1) pose transform. -/
theorem chain_pose_then_inverse (p : Pose6) :
    chain_poses [(PoseInput.tup p, false), (PoseInput.tup p, true)] =
        .ok [(toTransform p, false), (1, true)] ∧
      toTransform p * invert_transformation (toTransform p) = 1 := by
  obtain ⟨x, y, z, a, b, c⟩ := p
  have hinv := create_mul_inv x y z a b c
  constructor
  · simp [chain_poses, chain_poses_aux, resolvePoseInput, toTransform]
    exact hinv
  · exact hinv

/-- **C2.** `create_transformation_matrix` converts a, b, c from degrees to
radians, composes the rotation as `Rz · Ry · Rx` in exactly that order,
places that product in the top-left 3×3 block, `(x, y, z)` in the
translation column, and `(0, 0, 0, 1)` in the bottom row. -/
theorem create_transformation_matrix_structure (x y z a b c : ℝ) :
    (∀ i j : Fin 3,
        create_transformation_matrix x y z a b c i.castSucc j.castSucc =
          (Rz (radians a) * Ry (radians b) * Rx (radians c)) i j) ∧
      create_transformation_matrix x y z a b c 0 3 = x ∧
      create_transformation_matrix x y z a b c 1 3 = y ∧
      create_transformation_matrix x y z a b c 2 3 = z ∧
      create_transformation_matrix x y z a b c 3 0 = 0 ∧
      create_transformation_matrix x y z a b c 3 1 = 0 ∧
      create_transformation_matrix x y z a b c 3 2 = 0 ∧
      create_transformation_matrix x y z a b c 3 3 = 1 := by
  refine ⟨fun i j => ?_, rfl, rfl, rfl, rfl, rfl, rfl, rfl⟩
  fin_cases i <;> fin_cases j <;> rfl

/-! ### Extraction helpers shared by C3, C4 and C5 -/

lemma extract_eq_of_nonsingular (T : Matrix (Fin 4) (Fin 4) ℝ)
    (h : 1e-6 ≤ Real.sqrt (T 0 0 * T 0 0 + T 1 0 * T 1 0)) :
    extract_pose_parameters T =
      (T 0 3, T 1 3, T 2 3,
        degrees (arctan2 (T 1 0) (T 0 0)),
        degrees (arctan2 (-T 2 0) (Real.sqrt (T 0 0 * T 0 0 + T 1 0 * T 1 0))),
        degrees (arctan2 (T 2 1) (T 2 2))) := by
  simp only [extract_pose_parameters]
  rw [if_neg (not_lt.mpr h)]

lemma extract_eq_of_singular (T : Matrix (Fin 4) (Fin 4) ℝ)
    (h : Real.sqrt (T 0 0 * T 0 0 + T 1 0 * T 1 0) < 1e-6) :
    extract_pose_parameters T =
      (T 0 3, T 1 3, T 2 3,
        degrees (arctan2 (-T 1 2) (T 1 1)),
        degrees (arctan2 (-T 2 0) (Real.sqrt (T 0 0 * T 0 0 + T 1 0 * T 1 0))),
        0) := by
  simp only [extract_pose_parameters]
  rw [if_pos h]
  simp [degrees]

lemma R_prod_eq (a b c : ℝ) : Rz a * Ry b * Rx c =
    !![Real.cos a * Real.cos b,
       -Real.sin a * Real.cos c + Real.cos a * Real.sin b * Real.sin c,
       Real.sin a * Real.sin c + Real.cos a * Real.sin b * Real.cos c;
       Real.sin a * Real.cos b,
       Real.cos a * Real.cos c + Real.sin a * Real.sin b * Real.sin c,
       -Real.cos a * Real.sin c + Real.sin a * Real.sin b * Real.cos c;
       -Real.sin b,
       Real.cos b * Real.sin c,
       Real.cos b * Real.cos c] := by
  rw [Rz, Ry, Rx, Matrix.mul_fin_three, Matrix.mul_fin_three]
  ext i j
  fin_cases i <;> fin_cases j <;> simp

lemma create_apply_00 (x y z a b c : ℝ) :
    create_transformation_matrix x y z a b c 0 0 =
      Real.cos (radians a) * Real.cos (radians b) := by
  rw [show create_transformation_matrix x y z a b c 0 0 =
      (Rz (radians a) * Ry (radians b) * Rx (radians c)) 0 0 from rfl, R_prod_eq]
  rfl

lemma create_apply_01 (x y z a b c : ℝ) :
    create_transformation_matrix x y z a b c 0 1 =
      -Real.sin (radians a) * Real.cos (radians c) +
        Real.cos (radians a) * Real.sin (radians b) * Real.sin (radians c) := by
  rw [show create_transformation_matrix x y z a b c 0 1 =
      (Rz (radians a) * Ry (radians b) * Rx (radians c)) 0 1 from rfl, R_prod_eq]
  rfl

lemma create_apply_10 (x y z a b c : ℝ) :
    create_transformation_matrix x y z a b c 1 0 =
      Real.sin (radians a) * Real.cos (radians b) := by
  rw [show create_transformation_matrix x y z a b c 1 0 =
      (Rz (radians a) * Ry (radians b) * Rx (radians c)) 1 0 from rfl, R_prod_eq]
  rfl

lemma create_apply_11 (x y z a b c : ℝ) :
    create_transformation_matrix x y z a b c 1 1 =
      Real.cos (radians a) * Real.cos (radians c) +
        Real.sin (radians a) * Real.sin (radians b) * Real.sin (radians c) := by
  rw [show create_transformation_matrix x y z a b c 1 1 =
      (Rz (radians a) * Ry (radians b) * Rx (radians c)) 1 1 from rfl, R_prod_eq]
  rfl

lemma create_apply_12 (x y z a b c : ℝ) :
    create_transformation_matrix x y z a b c 1 2 =
      -Real.cos (radians a) * Real.sin (radians c) +
        Real.sin (radians a) * Real.sin (radians b) * Real.cos (radians c) := by
  rw [show create_transformation_matrix x y z a b c 1 2 =
      (Rz (radians a) * Ry (radians b) * Rx (radians c)) 1 2 from rfl, R_prod_eq]
  rfl

lemma create_apply_20 (x y z a b c : ℝ) :
    create_transformation_matrix x y z a b c 2 0 = -Real.sin (radians b) := by
  rw [show create_transformation_matrix x y z a b c 2 0 =
      (Rz (radians a) * Ry (radians b) * Rx (radians c)) 2 0 from rfl, R_prod_eq]
  rfl

lemma create_apply_21 (x y z a b c : ℝ) :
    create_transformation_matrix x y z a b c 2 1 =
      Real.cos (radians b) * Real.sin (radians c) := by
  rw [show create_transformation_matrix x y z a b c 2 1 =
      (Rz (radians a) * Ry (radians b) * Rx (radians c)) 2 1 from rfl, R_prod_eq]
  rfl

lemma create_apply_22 (x y z a b c : ℝ) :
    create_transformation_matrix x y z a b c 2 2 =
      Real.cos (radians b) * Real.cos (radians c) := by
  rw [show create_transformation_matrix x y z a b c 2 2 =
      (Rz (radians a) * Ry (radians b) * Rx (radians c)) 2 2 from rfl, R_prod_eq]
  rfl

lemma create_apply_03 (x y z a b c : ℝ) :
    create_transformation_matrix x y z a b c 0 3 = x := rfl

lemma create_apply_13 (x y z a b c : ℝ) :
    create_transformation_matrix x y z a b c 1 3 = y := rfl

lemma create_apply_23 (x y z a b c : ℝ) :
    create_transformation_matrix x y z a b c 2 3 = z := rfl

lemma radians_mem_Ioc {d : ℝ} (h₁ : -180 < d) (h₂ : d ≤ 180) :
    radians d ∈ Set.Ioc (-π) π := by
  have hπ := Real.pi_pos
  constructor
  · have := mul_pos (show (0:ℝ) < d + 180 by linarith) hπ
    rw [radians]
    nlinarith
  · have := mul_nonneg (show (0:ℝ) ≤ 180 - d by linarith) hπ.le
    rw [radians]
    nlinarith

lemma degrees_radians (d : ℝ) : degrees (radians d) = d := by
  rw [degrees, radians]
  field_simp

lemma arctan2_mul_cos_sin {r θ : ℝ} (hr : 0 < r) (hθ : θ ∈ Set.Ioc (-π) π) :
    arctan2 (r * Real.sin θ) (r * Real.cos θ) = θ := by
  rw [arctan2]
  have h : ((r * Real.cos θ : ℝ) : ℂ) + (r * Real.sin θ : ℝ) * Complex.I =
      (r : ℝ) * (Complex.cos θ + Complex.sin θ * Complex.I) := by
    push_cast
    ring
  rw [h, Complex.arg_mul_cos_add_sin_mul_I hr hθ]

lemma arctan2_cos_sin {θ : ℝ} (hθ : θ ∈ Set.Ioc (-π) π) :
    arctan2 (Real.sin θ) (Real.cos θ) = θ := by
  have h := arctan2_mul_cos_sin one_pos hθ
  simpa using h

/-- **C3.** `extract_pose_parameters` is total (never raises).  It reads
(x, y, z) from the translation column and, with
`sy = sqrt(T₀₀² + T₁₀²)`: when `sy ≥ 1e-6`, `a = atan2(T₁₀, T₀₀)`,
`b = atan2(-T₂₀, sy)`, `c = atan2(T₂₁, T₂₂)`; when `sy < 1e-6`,
`a = atan2(-T₁₂, T₁₁)`, `b = atan2(-T₂₀, sy)`, `c = 0`; the angles are
converted from radians to degrees. -/
theorem extract_pose_parameters_branches (T : Matrix (Fin 4) (Fin 4) ℝ) :
    (1e-6 ≤ Real.sqrt (T 0 0 * T 0 0 + T 1 0 * T 1 0) →
        extract_pose_parameters T =
          (T 0 3, T 1 3, T 2 3,
            degrees (arctan2 (T 1 0) (T 0 0)),
            degrees (arctan2 (-T 2 0) (Real.sqrt (T 0 0 * T 0 0 + T 1 0 * T 1 0))),
            degrees (arctan2 (T 2 1) (T 2 2)))) ∧
      (Real.sqrt (T 0 0 * T 0 0 + T 1 0 * T 1 0) < 1e-6 →
        extract_pose_parameters T =
          (T 0 3, T 1 3, T 2 3,
            degrees (arctan2 (-T 1 2) (T 1 1)),
            degrees (arctan2 (-T 2 0) (Real.sqrt (T 0 0 * T 0 0 + T 1 0 * T 1 0))),
            0)) :=
  ⟨extract_eq_of_nonsingular T, extract_eq_of_singular T⟩

/-- Instantiation of the extraction-branch theorem at a concrete
non-singular transform. -/
theorem extract_pose_parameters_branches_witness :
    (1e-6 : ℝ) ≤ Real.sqrt (witnessT 0 0 * witnessT 0 0 + witnessT 1 0 * witnessT 1 0) ∧
      extract_pose_parameters witnessT =
        (witnessT 0 3, witnessT 1 3, witnessT 2 3,
          degrees (arctan2 (witnessT 1 0) (witnessT 0 0)),
          degrees (arctan2 (-witnessT 2 0)
            (Real.sqrt (witnessT 0 0 * witnessT 0 0 + witnessT 1 0 * witnessT 1 0))),
          degrees (arctan2 (witnessT 2 1) (witnessT 2 2))) := by
  have hsum : (witnessT 0 0 * witnessT 0 0 + witnessT 1 0 * witnessT 1 0 : ℝ) = 1 := by
    norm_num [witnessT]
  have h : (1e-6 : ℝ) ≤ Real.sqrt (witnessT 0 0 * witnessT 0 0 + witnessT 1 0 * witnessT 1 0) := by
    rw [hsum, Real.sqrt_one]
    norm_num
  exact ⟨h, (extract_pose_parameters_branches witnessT).1 h⟩

/-- **C4.** Extraction/construction round-trip away from the singularity:
for angles in the principal ranges (`a, c ∈ (-180, 180]`, `b ∈ (-90, 90)`)
with `cos(radians b)` at or above the `1e-6` singularity threshold,
`extract_pose_parameters (create_transformation_matrix x y z a b c)`
reproduces `(x, y, z, a, b, c)` exactly (hence within any tolerance). -/
theorem extract_create_roundtrip (x y z a b c : ℝ)
    (ha₁ : -180 < a) (ha₂ : a ≤ 180)
    (hb₁ : -90 < b) (hb₂ : b < 90)
    (hc₁ : -180 < c) (hc₂ : c ≤ 180)
    (hsy : 1e-6 ≤ Real.cos (radians b)) :
    extract_pose_parameters (create_transformation_matrix x y z a b c) =
      (x, y, z, a, b, c) := by
  have hcb : (0:ℝ) < Real.cos (radians b) := lt_of_lt_of_le (by norm_num) hsy
  have hα := radians_mem_Ioc ha₁ ha₂
  have hβ := radians_mem_Ioc (show (-180:ℝ) < b by linarith) (show b ≤ 180 by linarith)
  have hγ := radians_mem_Ioc hc₁ hc₂
  have hsum : create_transformation_matrix x y z a b c 0 0 *
        create_transformation_matrix x y z a b c 0 0 +
        create_transformation_matrix x y z a b c 1 0 *
        create_transformation_matrix x y z a b c 1 0 =
      Real.cos (radians b) * Real.cos (radians b) := by
    rw [create_apply_00, create_apply_10]
    linear_combination (Real.cos (radians b) * Real.cos (radians b)) *
      Real.sin_sq_add_cos_sq (radians a)
  have hsy_eq : Real.sqrt (create_transformation_matrix x y z a b c 0 0 *
        create_transformation_matrix x y z a b c 0 0 +
        create_transformation_matrix x y z a b c 1 0 *
        create_transformation_matrix x y z a b c 1 0) = Real.cos (radians b) := by
    rw [hsum]
    exact Real.sqrt_mul_self hcb.le
  have hge : 1e-6 ≤ Real.sqrt (create_transformation_matrix x y z a b c 0 0 *
      create_transformation_matrix x y z a b c 0 0 +
      create_transformation_matrix x y z a b c 1 0 *
      create_transformation_matrix x y z a b c 1 0) := by
    rw [hsy_eq]; exact hsy
  rw [extract_eq_of_nonsingular _ hge, hsy_eq, create_apply_00, create_apply_10,
    create_apply_20, create_apply_21, create_apply_22, create_apply_03,
    create_apply_13, create_apply_23]
  have h4 : arctan2 (Real.sin (radians a) * Real.cos (radians b))
      (Real.cos (radians a) * Real.cos (radians b)) = radians a := by
    rw [mul_comm (Real.sin (radians a)) (Real.cos (radians b)),
      mul_comm (Real.cos (radians a)) (Real.cos (radians b))]
    exact arctan2_mul_cos_sin hcb hα
  have h5 : arctan2 (- -Real.sin (radians b)) (Real.cos (radians b)) = radians b := by
    rw [neg_neg]
    exact arctan2_cos_sin hβ
  have h6 : arctan2 (Real.cos (radians b) * Real.sin (radians c))
      (Real.cos (radians b) * Real.cos (radians c)) = radians c :=
    arctan2_mul_cos_sin hcb hγ
  rw [h4, h5, h6, degrees_radians, degrees_radians, degrees_radians]

/-- Instantiation of the round-trip theorem at a concrete pose. -/
theorem extract_create_roundtrip_witness :
    ((-180:ℝ) < 0 ∧ (0:ℝ) ≤ 180 ∧ (-90:ℝ) < 0 ∧ (0:ℝ) < 90 ∧
        (1e-6:ℝ) ≤ Real.cos (radians 0)) ∧
      extract_pose_parameters (create_transformation_matrix 1 2 3 0 0 0) =
        (1, 2, 3, 0, 0, 0) := by
  have hr0 : radians 0 = 0 := by rw [radians]; ring
  have hcos : (1e-6:ℝ) ≤ Real.cos (radians 0) := by
    rw [hr0, Real.cos_zero]; norm_num
  exact ⟨⟨by norm_num, by norm_num, by norm_num, by norm_num, hcos⟩,
    extract_create_roundtrip 1 2 3 0 0 0 (by norm_num) (by norm_num) (by norm_num)
      (by norm_num) (by norm_num) (by norm_num) hcos⟩

/-- **C5 (code evaluation).** At the singular pose (0, 0, 0, 45, 90, 30)
the code extracts (0, 0, 0, -15, 90, 0) — `c` is pinned to 0 as claimed —
but re-applying `create_transformation_matrix` to the extracted pose does
NOT reproduce the original transform: the entry at row 0, column 1 is
`sin 15°` in the reconstruction and `-sin 15°` in the original.  (For
`b = +90°` the coupled angle is `a - c`, while the singular branch stores
`atan2(-T₁₂, T₁₁) = c - a`; the standard algorithm this branch transcribes
assigns that value to the roll angle, not to `a`.) -/
theorem singular_extraction_mismatch :
    extract_pose_parameters (create_transformation_matrix 0 0 0 45 90 30) =
        (0, 0, 0, -15, 90, 0) ∧
      create_transformation_matrix 0 0 0 (-15) 90 0 ≠
        create_transformation_matrix 0 0 0 45 90 30 := by
  have hπ := Real.pi_pos
  have r90 : radians 90 = π / 2 := by rw [radians]; ring
  have r45 : radians 45 = π / 4 := by rw [radians]; ring
  have r30 : radians 30 = π / 6 := by rw [radians]; ring
  have r15 : radians (-15) = -(π / 12) := by rw [radians]; ring
  have r0 : radians 0 = 0 := by rw [radians]; ring
  have hs12 : 0 < Real.sin (π / 12) :=
    Real.sin_pos_of_pos_of_lt_pi (by positivity) (by linarith)
  have e1 : create_transformation_matrix 0 0 0 (-15) 90 0 0 1 = Real.sin (π / 12) := by
    rw [create_apply_01, r15, r0, r90, Real.sin_neg, Real.sin_zero, Real.cos_zero,
      Real.sin_pi_div_two]
    ring
  have e2 : create_transformation_matrix 0 0 0 45 90 30 0 1 = -Real.sin (π / 12) := by
    rw [create_apply_01, r45, r90, r30, Real.sin_pi_div_two,
      show -Real.sin (π / 4) * Real.cos (π / 6) +
          Real.cos (π / 4) * 1 * Real.sin (π / 6) =
        -(Real.sin (π / 4) * Real.cos (π / 6) - Real.cos (π / 4) * Real.sin (π / 6))
        from by ring,
      ← Real.sin_sub, show (π / 4 - π / 6 : ℝ) = π / 12 from by ring]
  constructor
  · have hsum : create_transformation_matrix 0 0 0 45 90 30 0 0 *
          create_transformation_matrix 0 0 0 45 90 30 0 0 +
          create_transformation_matrix 0 0 0 45 90 30 1 0 *
          create_transformation_matrix 0 0 0 45 90 30 1 0 = 0 := by
      rw [create_apply_00, create_apply_10, r90, Real.cos_pi_div_two]
      ring
    have hsy0 : Real.sqrt (create_transformation_matrix 0 0 0 45 90 30 0 0 *
        create_transformation_matrix 0 0 0 45 90 30 0 0 +
        create_transformation_matrix 0 0 0 45 90 30 1 0 *
        create_transformation_matrix 0 0 0 45 90 30 1 0) = 0 := by
      rw [hsum, Real.sqrt_zero]
    have hlt : Real.sqrt (create_transformation_matrix 0 0 0 45 90 30 0 0 *
        create_transformation_matrix 0 0 0 45 90 30 0 0 +
        create_transformation_matrix 0 0 0 45 90 30 1 0 *
        create_transformation_matrix 0 0 0 45 90 30 1 0) < 1e-6 := by
      rw [hsy0]; norm_num
    rw [extract_eq_of_singular _ hlt, hsy0, create_apply_03, create_apply_13,
      create_apply_23, create_apply_12, create_apply_11, create_apply_20]
    have ha : arctan2 (-(-Real.cos (radians 45) * Real.sin (radians 30) +
          Real.sin (radians 45) * Real.sin (radians 90) * Real.cos (radians 30)))
        (Real.cos (radians 45) * Real.cos (radians 30) +
          Real.sin (radians 45) * Real.sin (radians 90) * Real.sin (radians 30)) =
        -(π / 12) := by
      rw [r45, r90, r30, Real.sin_pi_div_two,
        show -(-Real.cos (π / 4) * Real.sin (π / 6) +
            Real.sin (π / 4) * 1 * Real.cos (π / 6)) =
          Real.sin (-(π / 12)) from by
            rw [Real.sin_neg, show (π / 12 : ℝ) = π / 4 - π / 6 from by ring,
              Real.sin_sub]
            ring,
        show Real.cos (π / 4) * Real.cos (π / 6) +
            Real.sin (π / 4) * 1 * Real.sin (π / 6) =
          Real.cos (-(π / 12)) from by
            rw [Real.cos_neg, show (π / 12 : ℝ) = π / 4 - π / 6 from by ring,
              Real.cos_sub]
            ring]
      exact arctan2_cos_sin ⟨by linarith, by linarith⟩
    have hb : arctan2 (- -Real.sin (radians 90)) 0 = π / 2 := by
      rw [neg_neg, r90, Real.sin_pi_div_two, arctan2]
      rw [show ((0:ℝ):ℂ) + ((1:ℝ):ℂ) * Complex.I = Complex.I from by push_cast; ring]
      exact Complex.arg_I
    rw [ha, hb,
      show (-(π / 12) : ℝ) = radians (-15) from by rw [radians]; ring,
      show (π / 2 : ℝ) = radians 90 from by rw [radians]; ring,
      degrees_radians, degrees_radians]
  · intro h
    have h01 := congrFun (congrFun h 0) 1
    rw [e1, e2] at h01
    linarith

/-! ### Fold lemmas for the extents computation -/

lemma foldl_min_le_init (l : List ℝ) : ∀ x, l.foldl min x ≤ x := by
  induction l with
  | nil => intro x; exact le_refl x
  | cons a l ih => intro x; exact le_trans (ih (min x a)) (min_le_left x a)

lemma foldl_min_le_mem (l : List ℝ) : ∀ x y, y ∈ l → l.foldl min x ≤ y := by
  induction l with
  | nil => intro x y hy; exact absurd hy (List.not_mem_nil y)
  | cons a l ih =>
    intro x y hy
    rcases List.mem_cons.mp hy with h | h
    · subst h
      exact le_trans (foldl_min_le_init l (min x y)) (min_le_right x y)
    · exact ih (min x a) y h

lemma foldl_min_attained (l : List ℝ) : ∀ x, l.foldl min x = x ∨ l.foldl min x ∈ l := by
  induction l with
  | nil => intro x; exact Or.inl rfl
  | cons a l ih =>
    intro x
    rcases ih (min x a) with h | h
    · rcases min_choice x a with hx | ha
      · exact Or.inl (by rw [List.foldl_cons, h, hx])
      · exact Or.inr (by rw [List.foldl_cons, h, ha]; exact List.mem_cons_self a l)
    · exact Or.inr (List.mem_cons_of_mem a h)

lemma init_le_foldl_max (l : List ℝ) : ∀ x, x ≤ l.foldl max x := by
  induction l with
  | nil => intro x; exact le_refl x
  | cons a l ih => intro x; exact le_trans (le_max_left x a) (ih (max x a))

lemma mem_le_foldl_max (l : List ℝ) : ∀ x y, y ∈ l → y ≤ l.foldl max x := by
  induction l with
  | nil => intro x y hy; exact absurd hy (List.not_mem_nil y)
  | cons a l ih =>
    intro x y hy
    rcases List.mem_cons.mp hy with h | h
    · subst h
      exact le_trans (le_max_right x y) (init_le_foldl_max l (max x y))
    · exact ih (max x a) y h

lemma foldl_max_attained (l : List ℝ) : ∀ x, l.foldl max x = x ∨ l.foldl max x ∈ l := by
  induction l with
  | nil => intro x; exact Or.inl rfl
  | cons a l ih =>
    intro x
    rcases ih (max x a) with h | h
    · rcases max_choice x a with hx | ha
      · exact Or.inl (by rw [List.foldl_cons, h, hx])
      · exact Or.inr (by rw [List.foldl_cons, h, ha]; exact List.mem_cons_self a l)
    · exact Or.inr (List.mem_cons_of_mem a h)

/-- **C8 (counterexample to the claim as stated).** On the empty chain,
`calculate_extents` does not fail with the distinguishable
`EmptyChainError` the spec postulates: it raises the numeric library's
`ValueError` (from `np.vstack([])`). -/
theorem calculate_extents_empty_counterexample :
    calculate_extents ([] : List (Matrix (Fin 4) (Fin 4) ℝ × Bool)) ≠
        .error PyErr.emptyChainError ∧
      calculate_extents ([] : List (Matrix (Fin 4) (Fin 4) ℝ × Bool)) =
        .error PyErr.valueError := by
  refine ⟨fun h => ?_, rfl⟩
  have h2 : PyErr.valueError = PyErr.emptyChainError := Except.error.inj h
  exact PyErr.noConfusion h2

/-- **C8 (amended).** `calculate_extents` fails on the empty chain — but
with the numeric library's `ValueError`, not a distinguishable
`EmptyChainError` — and on every non-empty chain returns the componentwise
minimum and maximum over the translation columns of all cumulative
transforms (each a lower/upper bound, each attained), so
`min_point ≤ max_point` componentwise. -/
theorem calculate_extents_minmax :
    calculate_extents ([] : List (Matrix (Fin 4) (Fin 4) ℝ × Bool)) =
        .error PyErr.valueError ∧
      ∀ (ch : List (Matrix (Fin 4) (Fin 4) ℝ × Bool)), ch ≠ [] →
        ∃ mn mx, calculate_extents ch = .ok (mn, mx) ∧
          (∀ (j : Fin 3), ∀ e ∈ ch,
            mn j ≤ translation e.1 j ∧ translation e.1 j ≤ mx j) ∧
          (∀ (j : Fin 3),
            (∃ e ∈ ch, mn j = translation e.1 j) ∧
              ∃ e ∈ ch, mx j = translation e.1 j) ∧
          ∀ (j : Fin 3), mn j ≤ mx j := by
  refine ⟨rfl, ?_⟩
  intro ch hch
  obtain ⟨e, es, rfl⟩ := List.exists_cons_of_ne_nil hch
  refine ⟨_, _, rfl, ?_, ?_, ?_⟩
  · intro j f hf
    rcases List.mem_cons.mp hf with h | h
    · subst h
      exact ⟨foldl_min_le_init _ _, init_le_foldl_max _ _⟩
    · have hmem : translation f.1 j ∈
          ((es.map fun e => translation e.1).map fun q => q j) :=
        List.mem_map.mpr ⟨translation f.1,
          List.mem_map.mpr ⟨f, h, rfl⟩, rfl⟩
      exact ⟨foldl_min_le_mem _ _ _ hmem, mem_le_foldl_max _ _ _ hmem⟩
  · intro j
    constructor
    · rcases foldl_min_attained ((es.map fun e => translation e.1).map fun q => q j)
          (translation e.1 j) with h | h
      · exact ⟨e, List.mem_cons_self e es, h⟩
      · obtain ⟨q, hq, hqj⟩ := List.mem_map.mp h
        obtain ⟨f, hf, rfl⟩ := List.mem_map.mp hq
        exact ⟨f, List.mem_cons_of_mem e hf, hqj.symm⟩
    · rcases foldl_max_attained ((es.map fun e => translation e.1).map fun q => q j)
          (translation e.1 j) with h | h
      · exact ⟨e, List.mem_cons_self e es, h⟩
      · obtain ⟨q, hq, hqj⟩ := List.mem_map.mp h
        obtain ⟨f, hf, rfl⟩ := List.mem_map.mp hq
        exact ⟨f, List.mem_cons_of_mem e hf, hqj.symm⟩
  · intro j
    exact le_trans (foldl_min_le_init _ _) (init_le_foldl_max _ _)

/-- **C7.** `parse_pose_string` succeeds, returning the 6-tuple of parsed
floats in field order, exactly on inputs beginning with text matching
`{X <num>, Y <num>, Z <num>, A <num>, B <num>, C <num>}` (each `<num>` an
optionally-signed decimal) anchored at the start of the string; on every
other input it fails with `ValueError` and returns nothing. -/
theorem parse_pose_string_spec (s : String) :
    (∀ p, parse_pose_string s = .ok p ↔ specMatches s p) ∧
      (parse_pose_string s = .error PyErr.valueError ↔ ∀ p, ¬ specMatches s p) := by
  have hok : ∀ p, parse_pose_string s = .ok p ↔ parse_pose_match s = some p := by
    intro p
    cases h : parse_pose_match s with
    | none => simp [parse_pose_string, h]
    | some q => simp [parse_pose_string, h]
  constructor
  · intro p
    rw [hok p, parse_pose_match_eq_some_iff]
  · constructor
    · intro herr p hspec
      have hp := (hok p).mpr (parse_pose_match_eq_some_iff.mpr hspec)
      rw [herr] at hp
      exact Except.noConfusion hp
    · intro hno
      cases h : parse_pose_match s with
      | none => simp [parse_pose_string, h]
      | some q => exact absurd (parse_pose_match_eq_some_iff.mp h) (hno q)

/-- Instantiation of the parser theorem at the docstring's example pose
string, whose parse succeeds and therefore matches the spec grammar. -/
theorem parse_pose_string_spec_witness :
    parse_pose_string "\x7bX 101.00, Y -0.00, Z 2200.00, A 90.00, B -10.00, C -90.00\x7d" =
        .ok (101, 0, 2200, 90, -10, -90) ∧
      specMatches "\x7bX 101.00, Y -0.00, Z 2200.00, A 90.00, B -10.00, C -90.00\x7d"
        (101, 0, 2200, 90, -10, -90) := by
  have h : parse_pose_string "\x7bX 101.00, Y -0.00, Z 2200.00, A 90.00, B -10.00, C -90.00\x7d" =
      .ok (101, 0, 2200, 90, -10, -90) := by
    simp +decide [parse_pose_string, parse_pose_match, matchField, matchLiteral,
      matchGroup, pyFloat, pyFloatUnsigned, intVal, fracVal, isGroupChar]
    norm_num
  exact ⟨h,
    ((parse_pose_string_spec
      "\x7bX 101.00, Y -0.00, Z 2200.00, A 90.00, B -10.00, C -90.00\x7d").1 _).mp h⟩

/-- **C10.** `chain_poses` also accepts pose strings: when every string in
the sequence parses, the output equals the output for the same sequence
with each string replaced by its parsed 6-tuple; when some string is
malformed, `chain_poses` raises the parser's `ValueError`. -/
theorem chain_poses_parses_strings (entries : List (PoseInput × Bool)) :
    ((∀ s b, (PoseInput.str s, b) ∈ entries → ∃ q, parse_pose_string s = .ok q) →
        chain_poses entries =
          chain_poses (entries.map fun e => (substPoseInput e.1, e.2))) ∧
      ((∃ s b, (PoseInput.str s, b) ∈ entries ∧
          parse_pose_string s = .error PyErr.valueError) →
        chain_poses entries = .error PyErr.valueError) :=
  ⟨fun h => chain_poses_aux_subst entries 1 h,
   fun h => chain_poses_aux_err entries 1 h⟩

/-- Instantiation of the string-chaining theorem at a concrete one-string
sequence whose pose string parses. -/
theorem chain_poses_parses_strings_witness :
    chain_poses [(PoseInput.str "\x7bX 1, Y 2, Z 3, A 4, B 5, C 6\x7d", false)] =
      chain_poses ([(PoseInput.str "\x7bX 1, Y 2, Z 3, A 4, B 5, C 6\x7d", false)].map
        fun e => (substPoseInput e.1, e.2)) := by
  refine (chain_poses_parses_strings _).1 ?_
  intro s b hm
  rw [List.mem_singleton] at hm
  obtain ⟨hs, -⟩ := Prod.mk.inj hm
  have hs2 : s = "\x7bX 1, Y 2, Z 3, A 4, B 5, C 6\x7d" := PoseInput.str.inj hs
  subst hs2
  refine ⟨(1, 2, 3, 4, 5, 6), ?_⟩
  simp +decide [parse_pose_string, parse_pose_match, matchField, matchLiteral,
    matchGroup, pyFloat, pyFloatUnsigned, intVal, fracVal, isGroupChar]
  norm_num

/-- Instantiation of the extents theorem at a concrete one-element chain. -/
theorem calculate_extents_minmax_witness :
    ([(witnessT, false)] : List (Matrix (Fin 4) (Fin 4) ℝ × Bool)) ≠ [] ∧
      ∃ mn mx, calculate_extents [(witnessT, false)] = .ok (mn, mx) ∧
        (∀ (j : Fin 3), ∀ e ∈ [(witnessT, false)],
          mn j ≤ translation e.1 j ∧ translation e.1 j ≤ mx j) ∧
        (∀ (j : Fin 3),
          (∃ e ∈ [(witnessT, false)], mn j = translation e.1 j) ∧
            ∃ e ∈ [(witnessT, false)], mx j = translation e.1 j) ∧
        ∀ (j : Fin 3), mn j ≤ mx j :=
  ⟨by simp, calculate_extents_minmax.2 [(witnessT, false)] (by simp)⟩

end Kuka
